import Mathlib

/-!
Verification development for the essreflectometry reference-normalization and
binned-integration engine.  The data model and the reduction algorithms are a
shallow embedding of the algorithm described in the repository's reduction
documents (docs/user-guide/focused-reflectometry-data-reduction.md and the
reduction-procedure document), with external collaborators (geometry, footprint,
supermirror curve, pixel grouping) taken as explicit function parameters, as the
documents prescribe.  Exact rational arithmetic stands in for the floating point
of the implementation; an absent (NaN) result is modelled by Option.
-/

namespace Reflectometry

/-- Modelled from the spec: one detected neutron event, carrying its wavelength
and the pixel id of the detector cell that it hit (spec §3, Event). -/
structure Event where
  lam : ℚ
  j : ℕ
deriving DecidableEq

/-- Modelled from the spec: the external collaborators consumed by the core —
per-event geometry (exact angle theta and its coarse per-group approximation
thetaBar), momentum transfer, detector index maps, beam divergence, the
pixel-to-reduced-group map, the footprint fraction F, and the supermirror
reflectivity curve Rsm with a partial domain (spec §1, §6). -/
structure Ctx where
  theta : ℚ → ℕ → ℚ → ℚ
  thetaBar : ℚ → ℕ → ℚ → ℚ
  qOf : ℚ → ℚ → ℚ
  yIndex : ℕ → ℤ
  zIndex : ℕ → ℤ
  divergence : ℚ → ℕ → ℚ
  group : ℕ → ℕ
  F : ℚ → ℚ → ℚ
  Rsm : ℚ → Option ℚ

/-- Modelled from the spec: region-of-interest limits — optional inclusive
ranges on the two detector index axes, the beam divergence angle and the
wavelength; an absent limit means no restriction on that axis (spec §4.2). -/
structure ROI where
  yLimits : Option (ℤ × ℤ)
  zLimits : Option (ℤ × ℤ)
  divLimits : Option (ℚ × ℚ)
  wavLimits : Option (ℚ × ℚ)

/-- An optional inclusive range test: an absent limit accepts everything. -/
def inLim {α : Type} [LE α] [DecidableRel (fun a b : α => a ≤ b)]
    (lim : Option (α × α)) (x : α) : Bool :=
  match lim with
  | none => true
  | some (a, b) => decide (a ≤ x) && decide (x ≤ b)

/-- Modelled from the spec: the ROI predicate over events (spec §4.2) — an
event is kept when every configured limit holds for it. -/
def roiFilter (ctx : Ctx) (roi : ROI) (e : Event) : Bool :=
  inLim roi.yLimits (ctx.yIndex e.j) && inLim roi.zLimits (ctx.zIndex e.j) &&
    inLim roi.divLimits (ctx.divergence e.lam e.j) && inLim roi.wavLimits e.lam

/-- Modelled from the spec: scalar per-run parameters — rotation mu, sample
width w and the region-of-interest specification (spec §3, Run). -/
structure RunParams where
  mu : ℚ
  w : ℚ
  roi : ROI

/-- Half-open bin search over a list of edges: returns the index i with
edges i ≤ x < edges (i+1), if any. -/
def binIndex : List ℚ → ℚ → Option ℕ
  | a :: b :: rest, x =>
    if a ≤ x ∧ x < b then some 0 else (binIndex (b :: rest) x).map (· + 1)
  | _, _ => none

/-- Modelled from the spec: processing of one reference event (spec §4.3 steps
1-4) — ROI filter, exact per-pixel angle, momentum transfer, supermirror
lookup (undefined Q excludes the event), wavelength-bin assignment, and the
per-event weight 1 / (F(theta, w) * Rsm(Q)); the result is the assigned
(wavelength-bin, reduced-pixel-group) cell together with the weight. -/
def refEventData (ctx : Ctx) (p : RunParams) (wavEdges : List ℚ) (e : Event) :
    Option ((ℕ × ℕ) × ℚ) :=
  if roiFilter ctx p.roi e then
    let th := ctx.theta e.lam e.j p.mu
    match ctx.Rsm (ctx.qOf e.lam th) with
    | none => none
    | some r =>
      match binIndex wavEdges e.lam with
      | none => none
      | some k => some ((k, ctx.group e.j), 1 / (ctx.F th p.w * r))
  else none

/-- Modelled from the spec: the Coarse Reference Grid — per-cell sum of
weights, sum of squared weights, and count of contributing events (spec §3,
Coarse Reference Grid; §4.3 step 5). -/
@[ext]
structure RefGrid where
  w : ℕ × ℕ → ℚ
  w2 : ℕ × ℕ → ℚ
  cnt : ℕ × ℕ → ℕ

/-- Pointwise additive update of a table at one key. -/
def addAt {ι : Type} [DecidableEq ι] {M : Type} [Add M]
    (f : ι → M) (i₀ : ι) (x : M) : ι → M :=
  fun i => if i = i₀ then f i + x else f i

/-- The empty reference grid. -/
def RefGrid.empty : RefGrid :=
  { w := fun _ => 0, w2 := fun _ => 0, cnt := fun _ => 0 }

/-- Accumulate one processed reference event into the grid. -/
def refStep (g : RefGrid) (d : (ℕ × ℕ) × ℚ) : RefGrid :=
  { w := addAt g.w d.1 d.2
    w2 := addAt g.w2 d.1 (d.2 ^ 2)
    cnt := addAt g.cnt d.1 1 }

/-- One step of the reference reduction: process the event and, when it is
retained, accumulate it into the grid. -/
def refUpdate (ctx : Ctx) (p : RunParams) (wavEdges : List ℚ)
    (g : RefGrid) (e : Event) : RefGrid :=
  match refEventData ctx p wavEdges e with
  | none => g
  | some d => refStep g d

/-- Modelled from the spec: the Reference Reduction Engine — fold the reference
event list through refUpdate starting from the empty grid (spec §4.3). -/
def buildRefGrid (ctx : Ctx) (p : RunParams) (wavEdges : List ℚ)
    (es : List Event) : RefGrid :=
  es.foldl (refUpdate ctx p wavEdges) RefGrid.empty

/-- The list of weights of the retained reference events assigned to cell c,
in event order. -/
def cellWeights (ctx : Ctx) (p : RunParams) (wavEdges : List ℚ)
    (es : List Event) (c : ℕ × ℕ) : List ℚ :=
  (((es.filterMap (refEventData ctx p wavEdges)).filter
    (fun d => decide (d.1 = c))).map (fun d => d.2))

/-- Modelled from the spec: processing of one sample event (spec §4.4 steps
1-5) — ROI filter, exact per-pixel angle and momentum transfer Q_sam, the
numerator weight 1 / F(theta, w), the coarse (wavelength-bin, group) cell, the
exclusion of events whose cell received no reference contribution, and the
Q-bin assignment of the event from its exact Q_sam; the result is the Q-bin
index, the weight and the coarse cell. -/
def samEventData (ctx : Ctx) (p : RunParams) (wavEdges qEdges : List ℚ)
    (g : RefGrid) (e : Event) : Option (ℕ × ℚ × (ℕ × ℕ)) :=
  if roiFilter ctx p.roi e then
    let th := ctx.theta e.lam e.j p.mu
    match binIndex wavEdges e.lam with
    | none => none
    | some k =>
      if g.cnt (k, ctx.group e.j) = 0 then none
      else
        match binIndex qEdges (ctx.qOf e.lam th) with
        | none => none
        | some i => some (i, 1 / ctx.F th p.w, (k, ctx.group e.j))
  else none

/-- Modelled from the spec: the Q-bin accumulator — per Q-bin the numerator
sum, the denominator sum, the numerator squared-weight sum, the propagated
denominator squared-weight sum, and a count of contributing events (spec §3,
Q-bin accumulator; §4.4 step 6). -/
@[ext]
structure QAcc where
  num : ℕ → ℚ
  den : ℕ → ℚ
  varN : ℕ → ℚ
  varD : ℕ → ℚ
  cnt : ℕ → ℕ

/-- The empty Q-bin accumulator. -/
def QAcc.empty : QAcc :=
  { num := fun _ => 0, den := fun _ => 0, varN := fun _ => 0
    varD := fun _ => 0, cnt := fun _ => 0 }

/-- Accumulate one processed sample event into the Q-bin accumulator:
numerator += v, denominator += grid weight of the cell, squared-weight sums
and count accordingly (spec §4.4 step 6). -/
def samStep (g : RefGrid) (acc : QAcc) (d : ℕ × ℚ × (ℕ × ℕ)) : QAcc :=
  { num := addAt acc.num d.1 d.2.1
    den := addAt acc.den d.1 (g.w d.2.2)
    varN := addAt acc.varN d.1 (d.2.1 ^ 2)
    varD := addAt acc.varD d.1 (g.w2 d.2.2)
    cnt := addAt acc.cnt d.1 1 }

/-- One step of the sample reduction: process the event and, when it is
retained, accumulate it. -/
def samUpdate (ctx : Ctx) (p : RunParams) (wavEdges qEdges : List ℚ)
    (g : RefGrid) (acc : QAcc) (e : Event) : QAcc :=
  match samEventData ctx p wavEdges qEdges g e with
  | none => acc
  | some d => samStep g acc d

/-- Modelled from the spec: the Sample Reduction Engine — fold the sample
event list through samUpdate starting from the empty accumulator, against a
fixed Coarse Reference Grid (spec §4.4). -/
def reduceSample (ctx : Ctx) (p : RunParams) (wavEdges qEdges : List ℚ)
    (g : RefGrid) (es : List Event) : QAcc :=
  es.foldl (samUpdate ctx p wavEdges qEdges g) QAcc.empty

/-- The contributions (weight, coarse cell) of the retained sample events
assigned to Q-bin i, in event order. -/
def samContribs (ctx : Ctx) (p : RunParams) (wavEdges qEdges : List ℚ)
    (g : RefGrid) (es : List Event) (i : ℕ) : List (ℚ × (ℕ × ℕ)) :=
  ((es.filterMap (samEventData ctx p wavEdges qEdges g)).filter
    (fun d => decide (d.1 = i))).map (fun d => d.2)

/-- Modelled from the spec: one point of the finalized reflectivity curve —
optional value and variance (absent for an empty bin, standing for the
implementation's NaN), an emptiness mask and the contributing-event count
(spec §4.4 step 7, §7 Domain-empty errors). -/
structure RPoint where
  val : Option ℚ
  var : Option ℚ
  isEmpty : Bool
  count : ℕ

/-- Modelled from the spec: finalization of one Q-bin (spec §4.4 step 7) —
R = numerator / denominator, variance by ratio-of-sums error propagation
Var(R) = (1/D^2) Var(N) + (N^2/D^4) Var(D); a bin with zero denominator gets
an undefined value and variance together with the mask and count. -/
def finalizeBin (acc : QAcc) (i : ℕ) : RPoint :=
  if acc.den i = 0 then
    { val := none, var := none, isEmpty := true, count := acc.cnt i }
  else
    { val := some (acc.num i / acc.den i)
      var := some ((1 / (acc.den i) ^ 2) * acc.varN i +
        ((acc.num i) ^ 2 / (acc.den i) ^ 4) * acc.varD i)
      isEmpty := false
      count := acc.cnt i }

/-- Modelled from the spec: the finalized reflectivity curve, one point per
configured Q-bin (spec §3, Reflectivity Curve). -/
def reflectivityCurve (acc : QAcc) (nbins : ℕ) : List RPoint :=
  (List.range nbins).map (finalizeBin acc)

/-- Modelled from the spec: one full session for one sample run — build the
Coarse Reference Grid from the reference run, then reduce the sample run
against it; returns the grid and the finalized curve (spec §2, control
flow). -/
def reduceSession (ctx : Ctx) (refP : RunParams) (wavEdges : List ℚ)
    (refEs : List Event) (samP : RunParams) (qEdges : List ℚ)
    (samEs : List Event) (nbins : ℕ) : RefGrid × List RPoint :=
  (buildRefGrid ctx refP wavEdges refEs,
   reflectivityCurve (reduceSample ctx samP wavEdges qEdges
     (buildRefGrid ctx refP wavEdges refEs) samEs) nbins)

/-- Modelled from the spec: reduce N sample runs against one shared Coarse
Reference Grid instance, built once (spec §5, cache discipline). -/
def reduceManyShared (ctx : Ctx) (refP : RunParams) (wavEdges qEdges : List ℚ)
    (refEs : List Event) (runs : List (RunParams × List Event)) (nbins : ℕ) :
    List (List RPoint) :=
  let g := buildRefGrid ctx refP wavEdges refEs
  runs.map (fun r => reflectivityCurve
    (reduceSample ctx r.1 wavEdges qEdges g r.2) nbins)

/-- Modelled from the spec: reduce N sample runs, rebuilding a fresh grid from
the identical reference events and configuration for every run (spec §8,
Cache equivalence). -/
def reduceManyFresh (ctx : Ctx) (refP : RunParams) (wavEdges qEdges : List ℚ)
    (refEs : List Event) (runs : List (RunParams × List Event)) (nbins : ℕ) :
    List (List RPoint) :=
  runs.map (fun r => reflectivityCurve
    (reduceSample ctx r.1 wavEdges qEdges
      (buildRefGrid ctx refP wavEdges refEs) r.2) nbins)

/-- Modelled from the spec: one point of a reflectivity curve as consumed by
the curve-combination tools — Q midpoint, value and variance (spec §3,
Reflectivity Curve; §4.5). -/
structure CPoint where
  q : ℚ
  val : ℚ
  var : ℚ
deriving DecidableEq

/-- Modelled from the spec: apply a scalar factor to a curve — each value is
multiplied by the factor and each variance by the factor squared (spec §4.5,
Scale-to-overlap). -/
def scaleCurve (f : ℚ) (c : List CPoint) : List CPoint :=
  c.map (fun p => { q := p.q, val := f * p.val, var := f ^ 2 * p.var })

/-- Modelled from the spec: the least-squares factor matching a list of values
to the constant 1.0 — the minimizer of the sum of (f * y - 1)^2, which is
(sum y) / (sum y^2); an empty or all-zero sample gives factor 1. -/
def lsqFactorToOne (ys : List ℚ) : ℚ :=
  if (ys.map (fun y => y ^ 2)).sum = 0 then 1
  else ys.sum / (ys.map (fun y => y ^ 2)).sum

/-- Pairs of (target value, curve value) at the Q points the curve shares with
the target curve. -/
def matchedPairs (t c : List CPoint) : List (ℚ × ℚ) :=
  c.filterMap (fun p =>
    (t.find? (fun p₂ => decide (p₂.q = p.q))).map (fun p₂ => (p₂.val, p.val)))

/-- Modelled from the spec: the least-squares factor matching a curve to a
target curve in their overlap — the minimizer of the sum of
(f * y - t)^2 over the shared points, which is (sum t*y) / (sum y^2); an empty
overlap gives factor 1 (spec §4.5). -/
def lsqFactorMatch (t c : List CPoint) : ℚ :=
  if ((matchedPairs t c).map (fun pr => pr.2 ^ 2)).sum = 0 then 1
  else ((matchedPairs t c).map (fun pr => pr.1 * pr.2)).sum /
    ((matchedPairs t c).map (fun pr => pr.2 ^ 2)).sum

/-- Factors for the successive curves, each matched against the previously
scaled curve. -/
def scaleFactorsAux : List CPoint → List (List CPoint) → List ℚ
  | _, [] => []
  | prev, c :: rest =>
    lsqFactorMatch prev c ::
      scaleFactorsAux (scaleCurve (lsqFactorMatch prev c) c) rest

/-- Modelled from the spec: scale_reflectivity_curves_to_overlap — compute a
scalar factor per curve (the first from the optional critical-edge interval
where reflectivity is known to be 1.0, each later curve by least-squares match
to its predecessor in the shared Q range) and return the scaled curves
together with the factors (spec §4.5, Scale-to-overlap). -/
def scale_reflectivity_curves_to_overlap (curves : List (List CPoint))
    (criticalEdge : Option (ℚ × ℚ)) : List (List CPoint) × List ℚ :=
  match curves with
  | [] => ([], [])
  | c :: rest =>
    let f0 := match criticalEdge with
      | none => 1
      | some iv => lsqFactorToOne
          ((c.filter (fun p => inLim (some iv) p.q)).map (fun p => p.val))
    let factors := f0 :: scaleFactorsAux (scaleCurve f0 c) rest
    (List.zipWith scaleCurve factors curves, factors)

/-- Modelled from the spec: the representative wavelength of grid cell k, the
arithmetic midpoint of the cell's edges (reduction document, lambda-grid
section). -/
def cellMidpoint (wavEdges : List ℚ) (k : ℕ) : Option ℚ :=
  match wavEdges[k]?, wavEdges[k + 1]? with
  | some a, some b => some ((a + b) / 2)
  | _, _ => none

/-- Modelled from the spec: the Q-bin that reference cell (k, z) contributes
to — the bin containing Q evaluated at the cell's midpoint wavelength and the
coarse per-group angle (reduction document, efficient evaluation of the
reference intensity). -/
def cellQbin (ctx : Ctx) (wavEdges qEdges : List ℚ) (mu : ℚ) (k z : ℕ) :
    Option ℕ :=
  match cellMidpoint wavEdges k with
  | none => none
  | some lb => binIndex qEdges (ctx.qOf lb (ctx.thetaBar lb z mu))

/-- Modelled from the spec: the coarse estimate of the ideal intensity in
Q-bin i — the sum of the precomputed cell values over the cells whose
midpoint-evaluated Q falls in the bin (reduction document, efficient
evaluation of the reference intensity). -/
def idealIntensityInBin (ctx : Ctx) (wavEdges qEdges : List ℚ) (mu : ℚ)
    (g : RefGrid) (nK nZ i : ℕ) : ℚ :=
  (((((List.range nK).map
      (fun k => (List.range nZ).map (fun z => (k, z)))).flatten).filter
    (fun kz => decide (cellQbin ctx wavEdges qEdges mu kz.1 kz.2 = some i))).map
    (fun kz => g.w kz)).sum

/-- A concrete context used by the witness theorems. -/
def ctxW : Ctx :=
  { theta := fun l _ _ => l
    thetaBar := fun l z m => l + (z : ℚ) + m
    qOf := fun _ th => th
    yIndex := fun j => (j : ℤ)
    zIndex := fun j => (j : ℤ)
    divergence := fun _ _ => 0
    group := fun j => j
    F := fun _ _ => 1
    Rsm := fun q => if q < 0 then none else some 1 }

/-- An unrestricted region of interest, used by the witness theorems. -/
def roiW : ROI := { yLimits := none, zLimits := none
                    divLimits := none, wavLimits := none }

/-- Concrete run parameters used by the witness theorems. -/
def pW : RunParams := { mu := 0, w := 1, roi := roiW }

/-- A concrete wavelength grid used by the witness theorems. -/
def wavEdgesW : List ℚ := [0, 10]

/-- A second wavelength grid with the same cell midpoints as wavEdgesW. -/
def wavEdgesW₂ : List ℚ := [2, 8]

/-- A concrete Q grid used by the witness theorems. -/
def qEdgesW : List ℚ := [0, 10]

/-- A concrete event retained by every stage, used by the witness theorems. -/
def eW : Event := { lam := 1, j := 0 }

/-- A concrete event whose momentum transfer is outside the supermirror
domain, used by the witness theorems. -/
def eNegW : Event := { lam := -1, j := 0 }

/-- A concrete event whose coarse cell receives no reference contribution,
used by the witness theorems. -/
def eEmptyW : Event := { lam := 2, j := 1 }

/-- A concrete reference grid built from one event, used by witnesses. -/
def gW : RefGrid := buildRefGrid ctxW pW wavEdgesW [eW]

/-- A concrete reflectivity curve used by the scale-to-overlap witness. -/
def cW : List CPoint := [{ q := 1, val := 1, var := 1 },
                         { q := 5, val := 2, var := 3 }]

/-- Generic characterization of a fold that adds one keyed value per processed
element: the final table entry at i is the initial entry plus the sum of the
values of the elements processed to key i. -/
theorem foldl_field {A α δ ι M : Type} [DecidableEq ι] [AddCommMonoid M]
    (upd : A → α → A) (proc : α → Option δ) (key : δ → ι)
    (fld : A → ι → M) (val : δ → M)
    (h : ∀ a e, fld (upd a e) =
      match proc e with
      | none => fld a
      | some d => addAt (fld a) (key d) (val d)) :
    ∀ (es : List α) (a : A) (i : ι),
      fld (es.foldl upd a) i =
        fld a i +
          (((es.filterMap proc).filter (fun d => decide (key d = i))).map val).sum := by
  intro es
  induction es with
  | nil => intro a i; simp
  | cons e es ih =>
    intro a i
    rw [List.foldl_cons, ih]
    rcases hp : proc e with _ | d
    · have he : fld (upd a e) = fld a := by rw [h a e, hp]
      simp [he, List.filterMap_cons, hp]
    · have he : fld (upd a e) = addAt (fld a) (key d) (val d) := by rw [h a e, hp]
      rw [he]
      by_cases hk : key d = i
      · simp [List.filterMap_cons, hp, hk, addAt, add_assoc, add_left_comm]
      · have hk₂ : ¬ i = key d := fun hh => hk hh.symm
        simp [List.filterMap_cons, hp, hk, addAt, hk₂]

/-- The reference grid's weight entry at a cell is the initial entry plus the
sum of the weights of the retained events sent to that cell. -/
theorem foldl_refUpdate_w (ctx : Ctx) (p : RunParams) (wavEdges : List ℚ)
    (es : List Event) (g : RefGrid) (c : ℕ × ℕ) :
    (es.foldl (refUpdate ctx p wavEdges) g).w c =
      g.w c + (cellWeights ctx p wavEdges es c).sum := by
  have h := foldl_field (refUpdate ctx p wavEdges) (refEventData ctx p wavEdges)
    (fun d => d.1) RefGrid.w (fun d => d.2) ?_ es g c
  · simpa [cellWeights, List.map_map] using h
  · intro a e
    rcases hp : refEventData ctx p wavEdges e with _ | d <;>
      simp [refUpdate, hp, refStep]

/-- The squared-weight entry at a cell is the initial entry plus the sum of
the squares of the weights of the retained events sent to that cell. -/
theorem foldl_refUpdate_w2 (ctx : Ctx) (p : RunParams) (wavEdges : List ℚ)
    (es : List Event) (g : RefGrid) (c : ℕ × ℕ) :
    (es.foldl (refUpdate ctx p wavEdges) g).w2 c =
      g.w2 c + ((cellWeights ctx p wavEdges es c).map (fun x => x ^ 2)).sum := by
  have h := foldl_field (refUpdate ctx p wavEdges) (refEventData ctx p wavEdges)
    (fun d => d.1) RefGrid.w2 (fun d => d.2 ^ 2) ?_ es g c
  · simpa [cellWeights, List.map_map] using h
  · intro a e
    rcases hp : refEventData ctx p wavEdges e with _ | d <;>
      simp [refUpdate, hp, refStep]

/-- The per-cell count is the initial count plus the number of retained events
sent to that cell. -/
theorem foldl_refUpdate_cnt (ctx : Ctx) (p : RunParams) (wavEdges : List ℚ)
    (es : List Event) (g : RefGrid) (c : ℕ × ℕ) :
    (es.foldl (refUpdate ctx p wavEdges) g).cnt c =
      g.cnt c + (cellWeights ctx p wavEdges es c).length := by
  have h := foldl_field (refUpdate ctx p wavEdges) (refEventData ctx p wavEdges)
    (fun d => d.1) RefGrid.cnt (fun _ => 1) ?_ es g c
  · rw [h]
    simp [cellWeights, List.map_const]
  · intro a e
    rcases hp : refEventData ctx p wavEdges e with _ | d <;>
      simp [refUpdate, hp, refStep]

/-- The accumulated numerator at a Q-bin is the initial value plus the sum of
the numerator weights of the retained events assigned to that bin. -/
theorem foldl_samUpdate_num (ctx : Ctx) (p : RunParams) (wavEdges qEdges : List ℚ)
    (g : RefGrid) (es : List Event) (acc : QAcc) (i : ℕ) :
    (es.foldl (samUpdate ctx p wavEdges qEdges g) acc).num i =
      acc.num i + ((samContribs ctx p wavEdges qEdges g es i).map
        (fun d => d.1)).sum := by
  have h := foldl_field (samUpdate ctx p wavEdges qEdges g)
    (samEventData ctx p wavEdges qEdges g) (fun d => d.1) QAcc.num
    (fun d => d.2.1) ?_ es acc i
  · simpa [samContribs, List.map_map] using h
  · intro a e
    rcases hp : samEventData ctx p wavEdges qEdges g e with _ | d <;>
      simp [samUpdate, hp, samStep]

/-- The accumulated denominator at a Q-bin is the initial value plus the sum
of the reference-grid weight entries of the retained events' coarse cells. -/
theorem foldl_samUpdate_den (ctx : Ctx) (p : RunParams) (wavEdges qEdges : List ℚ)
    (g : RefGrid) (es : List Event) (acc : QAcc) (i : ℕ) :
    (es.foldl (samUpdate ctx p wavEdges qEdges g) acc).den i =
      acc.den i + ((samContribs ctx p wavEdges qEdges g es i).map
        (fun d => g.w d.2)).sum := by
  have h := foldl_field (samUpdate ctx p wavEdges qEdges g)
    (samEventData ctx p wavEdges qEdges g) (fun d => d.1) QAcc.den
    (fun d => g.w d.2.2) ?_ es acc i
  · simpa [samContribs, List.map_map] using h
  · intro a e
    rcases hp : samEventData ctx p wavEdges qEdges g e with _ | d <;>
      simp [samUpdate, hp, samStep]

/-- The accumulated numerator-variance at a Q-bin is the initial value plus
the sum of the squared numerator weights of the retained events assigned to
that bin. -/
theorem foldl_samUpdate_varN (ctx : Ctx) (p : RunParams) (wavEdges qEdges : List ℚ)
    (g : RefGrid) (es : List Event) (acc : QAcc) (i : ℕ) :
    (es.foldl (samUpdate ctx p wavEdges qEdges g) acc).varN i =
      acc.varN i + ((samContribs ctx p wavEdges qEdges g es i).map
        (fun d => d.1 ^ 2)).sum := by
  have h := foldl_field (samUpdate ctx p wavEdges qEdges g)
    (samEventData ctx p wavEdges qEdges g) (fun d => d.1) QAcc.varN
    (fun d => d.2.1 ^ 2) ?_ es acc i
  · simpa [samContribs, List.map_map] using h
  · intro a e
    rcases hp : samEventData ctx p wavEdges qEdges g e with _ | d <;>
      simp [samUpdate, hp, samStep]

/-- The accumulated denominator-variance at a Q-bin is the initial value plus
the sum of the reference-grid squared-weight entries of the retained events'
coarse cells. -/
theorem foldl_samUpdate_varD (ctx : Ctx) (p : RunParams) (wavEdges qEdges : List ℚ)
    (g : RefGrid) (es : List Event) (acc : QAcc) (i : ℕ) :
    (es.foldl (samUpdate ctx p wavEdges qEdges g) acc).varD i =
      acc.varD i + ((samContribs ctx p wavEdges qEdges g es i).map
        (fun d => g.w2 d.2)).sum := by
  have h := foldl_field (samUpdate ctx p wavEdges qEdges g)
    (samEventData ctx p wavEdges qEdges g) (fun d => d.1) QAcc.varD
    (fun d => g.w2 d.2.2) ?_ es acc i
  · simpa [samContribs, List.map_map] using h
  · intro a e
    rcases hp : samEventData ctx p wavEdges qEdges g e with _ | d <;>
      simp [samUpdate, hp, samStep]

/-- The per-bin event count is the initial value plus the number of retained
events assigned to that bin. -/
theorem foldl_samUpdate_cnt (ctx : Ctx) (p : RunParams) (wavEdges qEdges : List ℚ)
    (g : RefGrid) (es : List Event) (acc : QAcc) (i : ℕ) :
    (es.foldl (samUpdate ctx p wavEdges qEdges g) acc).cnt i =
      acc.cnt i + (samContribs ctx p wavEdges qEdges g es i).length := by
  have h := foldl_field (samUpdate ctx p wavEdges qEdges g)
    (samEventData ctx p wavEdges qEdges g) (fun d => d.1) QAcc.cnt
    (fun _ => 1) ?_ es acc i
  · rw [h]
    simp [samContribs, List.map_const]
  · intro a e
    rcases hp : samEventData ctx p wavEdges qEdges g e with _ | d <;>
      simp [samUpdate, hp, samStep]

/-- Claim C1: for every reference run, after ROI filtering, the Coarse
Reference Grid entry for each (wavelength-bin, reduced-pixel-group) cell
equals the sum, over the retained reference events assigned to that cell, of
the per-event weight 1 / (F(theta_ref, w_ref) * R_supermirror(Q_ref)); the
companion table entry for the same cell equals the sum of the squares of
those same weights; and an event where R_supermirror is undefined at the
event's Q contributes to neither table. -/
theorem refGrid_entries_are_weight_sums (ctx : Ctx) (p : RunParams)
    (wavEdges : List ℚ) (es : List Event) (c : ℕ × ℕ) :
    (buildRefGrid ctx p wavEdges es).w c =
      (cellWeights ctx p wavEdges es c).sum ∧
    (buildRefGrid ctx p wavEdges es).w2 c =
      ((cellWeights ctx p wavEdges es c).map (fun x => x ^ 2)).sum ∧
    ∀ e : Event,
      ctx.Rsm (ctx.qOf e.lam (ctx.theta e.lam e.j p.mu)) = none →
      buildRefGrid ctx p wavEdges (e :: es) = buildRefGrid ctx p wavEdges es := by
  refine ⟨?_, ?_, ?_⟩
  · rw [buildRefGrid, foldl_refUpdate_w]
    simp [RefGrid.empty]
  · rw [buildRefGrid, foldl_refUpdate_w2]
    simp [RefGrid.empty]
  · intro e he
    have hnone : refEventData ctx p wavEdges e = none := by
      unfold refEventData
      split
      · simp [he]
      · rfl
    simp [buildRefGrid, refUpdate, hnone]

/-- Witness for C1 at a concrete reference run: the excluded event eNegW has
its momentum transfer outside the supermirror domain and leaves the grid
unchanged. -/
theorem refGrid_entries_are_weight_sums_witness :
    (ctxW.Rsm (ctxW.qOf eNegW.lam (ctxW.theta eNegW.lam eNegW.j pW.mu)) = none) ∧
    buildRefGrid ctxW pW wavEdgesW (eNegW :: [eW]) =
      buildRefGrid ctxW pW wavEdgesW [eW] :=
  ⟨by decide,
   (refGrid_entries_are_weight_sums ctxW pW wavEdgesW [eW] (0, 0)).2.2 eNegW
     (by decide)⟩

/-- Claim C2: for every sample run and every Q-bin, the accumulated numerator
equals the sum of v = 1 / F(theta_sam, w_sam) over exactly the sample events
that pass the ROI filter, whose coarse cell has a non-empty reference-grid
entry, and whose Q_sam (from the exact per-pixel angle) falls in that bin;
the accumulated denominator is the matching sum of reference-grid entries;
and an event whose coarse cell has an empty reference entry contributes to
neither accumulator. -/
theorem sampleAccum_characterization (ctx : Ctx) (p : RunParams)
    (wavEdges qEdges : List ℚ) (g : RefGrid) (es : List Event) (i : ℕ) :
    (reduceSample ctx p wavEdges qEdges g es).num i =
      ((samContribs ctx p wavEdges qEdges g es i).map (fun d => d.1)).sum ∧
    (reduceSample ctx p wavEdges qEdges g es).den i =
      ((samContribs ctx p wavEdges qEdges g es i).map (fun d => g.w d.2)).sum ∧
    ∀ (e : Event) (k : ℕ),
      roiFilter ctx p.roi e = true →
      binIndex wavEdges e.lam = some k →
      g.cnt (k, ctx.group e.j) = 0 →
      reduceSample ctx p wavEdges qEdges g (e :: es) =
        reduceSample ctx p wavEdges qEdges g es := by
  refine ⟨?_, ?_, ?_⟩
  · rw [reduceSample, foldl_samUpdate_num]
    simp [QAcc.empty]
  · rw [reduceSample, foldl_samUpdate_den]
    simp [QAcc.empty]
  · intro e k hroi hbin hcnt
    have hnone : samEventData ctx p wavEdges qEdges g e = none := by
      unfold samEventData
      rw [if_pos hroi, hbin]
      simp [hcnt]
    simp [reduceSample, samUpdate, hnone]

/-- Witness for C2 at a concrete sample run: the event eEmptyW passes the ROI
filter and has a wavelength bin, but its coarse cell holds no reference
contribution, so it changes no accumulator. -/
theorem sampleAccum_characterization_witness :
    (roiFilter ctxW pW.roi eEmptyW = true) ∧
    (binIndex wavEdgesW eEmptyW.lam = some 0) ∧
    (gW.cnt (0, ctxW.group eEmptyW.j) = 0) ∧
    reduceSample ctxW pW wavEdgesW qEdgesW gW (eEmptyW :: [eW]) =
      reduceSample ctxW pW wavEdgesW qEdgesW gW [eW] :=
  ⟨by decide, by decide, by decide,
   (sampleAccum_characterization ctxW pW wavEdgesW qEdgesW gW [eW] 0).2.2
     eEmptyW 0 (by decide) (by decide) (by decide)⟩

/-- Claim C7: additivity — for every partition of a reference event list into
two sub-lists, building a Coarse Reference Grid from each (with the same
configuration) and adding the two weight tables, the two squared-weight
tables and the two count tables elementwise gives exactly the grid built from
the concatenated list. -/
theorem refGrid_additive (ctx : Ctx) (p : RunParams) (wavEdges : List ℚ)
    (es₁ es₂ : List Event) (c : ℕ × ℕ) :
    (buildRefGrid ctx p wavEdges (es₁ ++ es₂)).w c =
      (buildRefGrid ctx p wavEdges es₁).w c +
        (buildRefGrid ctx p wavEdges es₂).w c ∧
    (buildRefGrid ctx p wavEdges (es₁ ++ es₂)).w2 c =
      (buildRefGrid ctx p wavEdges es₁).w2 c +
        (buildRefGrid ctx p wavEdges es₂).w2 c ∧
    (buildRefGrid ctx p wavEdges (es₁ ++ es₂)).cnt c =
      (buildRefGrid ctx p wavEdges es₁).cnt c +
        (buildRefGrid ctx p wavEdges es₂).cnt c := by
  have happ : cellWeights ctx p wavEdges (es₁ ++ es₂) c =
      cellWeights ctx p wavEdges es₁ c ++ cellWeights ctx p wavEdges es₂ c := by
    simp [cellWeights, List.filterMap_append, List.filter_append]
  refine ⟨?_, ?_, ?_⟩
  · rw [buildRefGrid, buildRefGrid, buildRefGrid,
      foldl_refUpdate_w, foldl_refUpdate_w, foldl_refUpdate_w, happ]
    simp [RefGrid.empty]
  · rw [buildRefGrid, buildRefGrid, buildRefGrid,
      foldl_refUpdate_w2, foldl_refUpdate_w2, foldl_refUpdate_w2, happ]
    simp [RefGrid.empty]
  · rw [buildRefGrid, buildRefGrid, buildRefGrid,
      foldl_refUpdate_cnt, foldl_refUpdate_cnt, foldl_refUpdate_cnt, happ]
    simp [RefGrid.empty]

/-- Claim C3: for every Q-bin with nonzero denominator, the finalized variance
of R equals (1/D^2) Var(N) + (N^2/D^4) Var(D), where N is the accumulated
numerator, D the accumulated denominator, Var(N) the accumulated sum of
squared per-event numerator weights, and Var(D) the reference table's
accumulated squared-weight entries for the contributing cells. -/
theorem variance_formula (ctx : Ctx) (p : RunParams) (wavEdges qEdges : List ℚ)
    (g : RefGrid) (es : List Event) (i : ℕ)
    (h : (reduceSample ctx p wavEdges qEdges g es).den i ≠ 0) :
    (finalizeBin (reduceSample ctx p wavEdges qEdges g es) i).var =
      some ((1 / (((samContribs ctx p wavEdges qEdges g es i).map
              (fun d => g.w d.2)).sum) ^ 2) *
            ((samContribs ctx p wavEdges qEdges g es i).map
              (fun d => d.1 ^ 2)).sum +
          ((((samContribs ctx p wavEdges qEdges g es i).map
              (fun d => d.1)).sum) ^ 2 /
            (((samContribs ctx p wavEdges qEdges g es i).map
              (fun d => g.w d.2)).sum) ^ 4) *
            ((samContribs ctx p wavEdges qEdges g es i).map
              (fun d => g.w2 d.2)).sum) := by
  have hnum := foldl_samUpdate_num ctx p wavEdges qEdges g es QAcc.empty i
  have hden := foldl_samUpdate_den ctx p wavEdges qEdges g es QAcc.empty i
  have hvn := foldl_samUpdate_varN ctx p wavEdges qEdges g es QAcc.empty i
  have hvd := foldl_samUpdate_varD ctx p wavEdges qEdges g es QAcc.empty i
  unfold finalizeBin
  rw [if_neg h]
  simp only [reduceSample]
  rw [hnum, hden, hvn, hvd]
  simp [QAcc.empty]

/-- Witness for C3 at a concrete sample run with one contributing event in
Q-bin 0: the denominator is nonzero and the finalized variance obeys the
ratio-of-sums propagation formula. -/
theorem variance_formula_witness :
    ((reduceSample ctxW pW wavEdgesW qEdgesW gW [eW]).den 0 ≠ 0) ∧
    (finalizeBin (reduceSample ctxW pW wavEdgesW qEdgesW gW [eW]) 0).var =
      some ((1 / (((samContribs ctxW pW wavEdgesW qEdgesW gW [eW] 0).map
              (fun d => gW.w d.2)).sum) ^ 2) *
            ((samContribs ctxW pW wavEdgesW qEdgesW gW [eW] 0).map
              (fun d => d.1 ^ 2)).sum +
          ((((samContribs ctxW pW wavEdgesW qEdgesW gW [eW] 0).map
              (fun d => d.1)).sum) ^ 2 /
            (((samContribs ctxW pW wavEdgesW qEdgesW gW [eW] 0).map
              (fun d => gW.w d.2)).sum) ^ 4) *
            ((samContribs ctxW pW wavEdgesW qEdgesW gW [eW] 0).map
              (fun d => gW.w2 d.2)).sum) := by
  have hden : (reduceSample ctxW pW wavEdgesW qEdgesW gW [eW]).den 0 ≠ 0 := by
    norm_num [reduceSample, samUpdate, samEventData, roiFilter, inLim, binIndex,
      samStep, addAt, QAcc.empty, gW, buildRefGrid, refUpdate, refEventData,
      refStep, RefGrid.empty, ctxW, pW, roiW, wavEdgesW, qEdgesW, eW]
  exact ⟨hden, variance_formula ctxW pW wavEdgesW qEdgesW gW [eW] 0 hden⟩

/-- Claim C6: a Q-bin whose accumulated denominator is zero yields an
undefined value in the output curve (never the value zero), together with an
emptiness mask allowing the caller to detect it, and the point is present in
the finalized curve at that bin's index. -/
theorem emptyBin_reported (ctx : Ctx) (p : RunParams) (wavEdges qEdges : List ℚ)
    (g : RefGrid) (es : List Event) (i nbins : ℕ)
    (hz : (reduceSample ctx p wavEdges qEdges g es).den i = 0)
    (hn : i < nbins) :
    (finalizeBin (reduceSample ctx p wavEdges qEdges g es) i).val = none ∧
    (finalizeBin (reduceSample ctx p wavEdges qEdges g es) i).isEmpty = true ∧
    (finalizeBin (reduceSample ctx p wavEdges qEdges g es) i).val ≠ some 0 ∧
    (reflectivityCurve (reduceSample ctx p wavEdges qEdges g es) nbins)[i]? =
      some (finalizeBin (reduceSample ctx p wavEdges qEdges g es) i) := by
  refine ⟨?_, ?_, ?_, ?_⟩
  · unfold finalizeBin
    rw [if_pos hz]
  · unfold finalizeBin
    rw [if_pos hz]
  · unfold finalizeBin
    rw [if_pos hz]
    simp
  · simp [reflectivityCurve, hn]

/-- Witness for C6: the empty sample run leaves every denominator zero, and
Q-bin 0 of a one-bin curve is reported as undefined with the mask set. -/
theorem emptyBin_reported_witness :
    ((reduceSample ctxW pW wavEdgesW qEdgesW gW []).den 0 = 0) ∧ (0 < 1) ∧
    ((finalizeBin (reduceSample ctxW pW wavEdgesW qEdgesW gW []) 0).val = none ∧
     (finalizeBin (reduceSample ctxW pW wavEdgesW qEdgesW gW []) 0).isEmpty = true ∧
     (finalizeBin (reduceSample ctxW pW wavEdgesW qEdgesW gW []) 0).val ≠ some 0 ∧
     (reflectivityCurve (reduceSample ctxW pW wavEdgesW qEdgesW gW []) 1)[0]? =
       some (finalizeBin (reduceSample ctxW pW wavEdgesW qEdgesW gW []) 0)) :=
  ⟨rfl, by decide,
   emptyBin_reported ctxW pW wavEdgesW qEdgesW gW [] 0 1 rfl (by decide)⟩

/-- Claim C4: the Coarse Reference Grid is a function of the reference run's
events and configuration only — two sessions sharing the reference events and
configuration but differing in every sample-run parameter (rotation, width,
ROI, Q edges, sample events, bin count) build identical grids, both the
weight table and the squared-weight table. -/
theorem refGrid_independent_of_sample (ctx : Ctx) (refP : RunParams)
    (wavEdges : List ℚ) (refEs : List Event)
    (samP₁ samP₂ : RunParams) (qE₁ qE₂ : List ℚ)
    (samEs₁ samEs₂ : List Event) (n₁ n₂ : ℕ) :
    (reduceSession ctx refP wavEdges refEs samP₁ qE₁ samEs₁ n₁).1 =
      (reduceSession ctx refP wavEdges refEs samP₂ qE₂ samEs₂ n₂).1 ∧
    (reduceSession ctx refP wavEdges refEs samP₁ qE₁ samEs₁ n₁).1.w =
      (reduceSession ctx refP wavEdges refEs samP₂ qE₂ samEs₂ n₂).1.w ∧
    (reduceSession ctx refP wavEdges refEs samP₁ qE₁ samEs₁ n₁).1.w2 =
      (reduceSession ctx refP wavEdges refEs samP₂ qE₂ samEs₂ n₂).1.w2 :=
  ⟨rfl, rfl, rfl⟩

/-- Claim C5: cache equivalence — building the Coarse Reference Grid once and
passing the same instance to N sample reductions yields, for every run,
exactly the same finalized curve (values and variances) as rebuilding a fresh
grid from the identical reference events and configuration for each run. -/
theorem cache_equivalence (ctx : Ctx) (refP : RunParams)
    (wavEdges qEdges : List ℚ) (refEs : List Event)
    (runs : List (RunParams × List Event)) (nbins : ℕ) :
    reduceManyShared ctx refP wavEdges qEdges refEs runs nbins =
      reduceManyFresh ctx refP wavEdges qEdges refEs runs nbins :=
  rfl

/-- Claim C8: order invariance — for every permutation of the sample event
list, the reduction produces an identical Q-bin accumulator (all five per-bin
sums) and an identical finalized curve. -/
theorem sampleReduction_perm_invariant (ctx : Ctx) (p : RunParams)
    (wavEdges qEdges : List ℚ) (g : RefGrid) (nbins : ℕ)
    (es₁ es₂ : List Event) (hperm : es₁.Perm es₂) :
    reduceSample ctx p wavEdges qEdges g es₁ =
      reduceSample ctx p wavEdges qEdges g es₂ ∧
    reflectivityCurve (reduceSample ctx p wavEdges qEdges g es₁) nbins =
      reflectivityCurve (reduceSample ctx p wavEdges qEdges g es₂) nbins := by
  have hc : ∀ i, (samContribs ctx p wavEdges qEdges g es₁ i).Perm
      (samContribs ctx p wavEdges qEdges g es₂ i) := by
    intro i
    unfold samContribs
    exact ((hperm.filterMap (samEventData ctx p wavEdges qEdges g)).filter
      (fun d => decide (d.1 = i))).map (fun d => d.2)
  have hacc : reduceSample ctx p wavEdges qEdges g es₁ =
      reduceSample ctx p wavEdges qEdges g es₂ := by
    apply QAcc.ext
    · funext i
      rw [show (reduceSample ctx p wavEdges qEdges g es₁).num i = _ from
          foldl_samUpdate_num ctx p wavEdges qEdges g es₁ QAcc.empty i,
        show (reduceSample ctx p wavEdges qEdges g es₂).num i = _ from
          foldl_samUpdate_num ctx p wavEdges qEdges g es₂ QAcc.empty i,
        ((hc i).map (fun d => d.1)).sum_eq]
    · funext i
      rw [show (reduceSample ctx p wavEdges qEdges g es₁).den i = _ from
          foldl_samUpdate_den ctx p wavEdges qEdges g es₁ QAcc.empty i,
        show (reduceSample ctx p wavEdges qEdges g es₂).den i = _ from
          foldl_samUpdate_den ctx p wavEdges qEdges g es₂ QAcc.empty i,
        ((hc i).map (fun d => g.w d.2)).sum_eq]
    · funext i
      rw [show (reduceSample ctx p wavEdges qEdges g es₁).varN i = _ from
          foldl_samUpdate_varN ctx p wavEdges qEdges g es₁ QAcc.empty i,
        show (reduceSample ctx p wavEdges qEdges g es₂).varN i = _ from
          foldl_samUpdate_varN ctx p wavEdges qEdges g es₂ QAcc.empty i,
        ((hc i).map (fun d => d.1 ^ 2)).sum_eq]
    · funext i
      rw [show (reduceSample ctx p wavEdges qEdges g es₁).varD i = _ from
          foldl_samUpdate_varD ctx p wavEdges qEdges g es₁ QAcc.empty i,
        show (reduceSample ctx p wavEdges qEdges g es₂).varD i = _ from
          foldl_samUpdate_varD ctx p wavEdges qEdges g es₂ QAcc.empty i,
        ((hc i).map (fun d => g.w2 d.2)).sum_eq]
    · funext i
      rw [show (reduceSample ctx p wavEdges qEdges g es₁).cnt i = _ from
          foldl_samUpdate_cnt ctx p wavEdges qEdges g es₁ QAcc.empty i,
        show (reduceSample ctx p wavEdges qEdges g es₂).cnt i = _ from
          foldl_samUpdate_cnt ctx p wavEdges qEdges g es₂ QAcc.empty i,
        (hc i).length_eq]
  exact ⟨hacc, by rw [hacc]⟩

/-- Witness for C8: swapping the two events of a concrete sample run leaves
the accumulator and the curve unchanged. -/
theorem sampleReduction_perm_invariant_witness :
    (List.Perm [eW, eEmptyW] [eEmptyW, eW]) ∧
    (reduceSample ctxW pW wavEdgesW qEdgesW gW [eW, eEmptyW] =
      reduceSample ctxW pW wavEdgesW qEdgesW gW [eEmptyW, eW] ∧
    reflectivityCurve (reduceSample ctxW pW wavEdgesW qEdgesW gW [eW, eEmptyW]) 1 =
      reflectivityCurve (reduceSample ctxW pW wavEdgesW qEdgesW gW [eEmptyW, eW]) 1) :=
  ⟨List.Perm.swap eEmptyW eW [],
   sampleReduction_perm_invariant ctxW pW wavEdgesW qEdgesW gW 1 [eW, eEmptyW]
     [eEmptyW, eW] (List.Perm.swap eEmptyW eW [])⟩

/-- A least-squares match of an all-ones sample to the constant one gives
factor one. -/
theorem lsqFactorToOne_ones (ys : List ℚ) (h : ∀ y ∈ ys, y = 1) :
    lsqFactorToOne ys = 1 := by
  have h2 : ∀ x ∈ ys.map (fun y => y ^ 2), x = 1 := by
    intro x hx
    rcases List.mem_map.mp hx with ⟨y, hy, rfl⟩
    rw [h y hy]
    norm_num
  have hs2 : (ys.map (fun y => y ^ 2)).sum = (ys.length : ℚ) := by
    rw [List.sum_eq_card_nsmul _ 1 h2]
    simp
  have hs : ys.sum = (ys.length : ℚ) := by
    rw [List.sum_eq_card_nsmul _ 1 h]
    simp
  unfold lsqFactorToOne
  rw [hs2, hs]
  by_cases hl : ys.length = 0
  · simp [hl]
  · have hne : ((ys.length : ℚ)) ≠ 0 := by exact_mod_cast hl
    simp [hne, div_self hne]

/-- Claim C9: applying the curve-scaling operation to a collection containing
a single reflectivity curve — where any configured critical-edge interval
only covers points whose value is already 1.0 — returns the scale factor 1.0
for that curve and the curve scaled by factor 1.0; and scaling by any factor
multiplies every value by the factor and every variance by the factor
squared. -/
theorem scale_single_curve_identity (c : List CPoint) (ce : Option (ℚ × ℚ))
    (h : ∀ iv, ce = some iv → ∀ p ∈ c, inLim (some iv) p.q = true → p.val = 1) :
    scale_reflectivity_curves_to_overlap [c] ce = ([scaleCurve 1 c], [1]) ∧
    ∀ (f : ℚ) (c₂ : List CPoint),
      scaleCurve f c₂ =
        c₂.map (fun p => { q := p.q, val := f * p.val, var := f ^ 2 * p.var }) := by
  constructor
  · rcases ce with _ | iv
    · simp [scale_reflectivity_curves_to_overlap, scaleFactorsAux]
    · have hf0 : lsqFactorToOne
          ((c.filter (fun p => inLim (some iv) p.q)).map (fun p => p.val)) = 1 := by
        apply lsqFactorToOne_ones
        intro y hy
        rcases List.mem_map.mp hy with ⟨p, hp, rfl⟩
        rcases List.mem_filter.mp hp with ⟨hpc, hpq⟩
        exact h iv rfl p hpc hpq
      simp [scale_reflectivity_curves_to_overlap, scaleFactorsAux, hf0]
  · intro f c₂
    rfl

/-- Witness for C9: a concrete one-curve collection whose critical-edge
interval covers only a point of value one is returned unscaled with factor
one. -/
theorem scale_single_curve_identity_witness :
    (∀ p ∈ cW, inLim (some ((0 : ℚ), (2 : ℚ))) p.q = true → p.val = 1) ∧
    scale_reflectivity_curves_to_overlap [cW] (some ((0 : ℚ), (2 : ℚ))) =
      ([scaleCurve 1 cW], [1]) :=
  ⟨by decide,
   (scale_single_curve_identity cW (some ((0 : ℚ), (2 : ℚ)))
     (fun iv hiv => by
       injection hiv with hh
       subst hh
       decide)).1⟩

/-- A wavelength bin whose upper edge index is out of range has no
midpoint. -/
theorem cellMidpoint_eq_none (edges : List ℚ) (k : ℕ)
    (h : edges.length ≤ k + 1) : cellMidpoint edges k = none := by
  have h2 : edges[k + 1]? = none := List.getElem?_eq_none h
  unfold cellMidpoint
  rw [h2]
  rcases edges[k]? with _ | a <;> rfl

/-- Claim C10: the coarse wavelength coordinate at which a reference-grid
cell is evaluated is the arithmetic midpoint of the configured wavelength
bin's edges, (lambda_k + lambda_(k+1)) / 2 — and only the midpoint matters:
any two edge lists inducing the same midpoints make every cell contribute to
the same Q-bin and give the same coarse ideal-intensity estimate in every
bin. -/
theorem cell_evaluated_at_midpoint (ctx : Ctx) (qEdges : List ℚ) (mu : ℚ)
    (wavEdges : List ℚ) :
    (∀ (k : ℕ) (h₁ : k < wavEdges.length) (h₂ : k + 1 < wavEdges.length),
      cellMidpoint wavEdges k =
        some ((wavEdges.get ⟨k, h₁⟩ + wavEdges.get ⟨k + 1, h₂⟩) / 2)) ∧
    (∀ (k z : ℕ) (h₁ : k < wavEdges.length) (h₂ : k + 1 < wavEdges.length),
      cellQbin ctx wavEdges qEdges mu k z =
        binIndex qEdges
          (ctx.qOf ((wavEdges.get ⟨k, h₁⟩ + wavEdges.get ⟨k + 1, h₂⟩) / 2)
            (ctx.thetaBar
              ((wavEdges.get ⟨k, h₁⟩ + wavEdges.get ⟨k + 1, h₂⟩) / 2) z mu))) ∧
    ∀ wavEdges₂ : List ℚ,
      (∀ k, cellMidpoint wavEdges k = cellMidpoint wavEdges₂ k) →
      (∀ k z, cellQbin ctx wavEdges qEdges mu k z =
        cellQbin ctx wavEdges₂ qEdges mu k z) ∧
      ∀ (g : RefGrid) (nK nZ i : ℕ),
        idealIntensityInBin ctx wavEdges qEdges mu g nK nZ i =
          idealIntensityInBin ctx wavEdges₂ qEdges mu g nK nZ i := by
  have hmid : ∀ (k : ℕ) (h₁ : k < wavEdges.length)
      (h₂ : k + 1 < wavEdges.length),
      cellMidpoint wavEdges k =
        some ((wavEdges.get ⟨k, h₁⟩ + wavEdges.get ⟨k + 1, h₂⟩) / 2) := by
    intro k h₁ h₂
    unfold cellMidpoint
    rw [List.getElem?_eq_getElem h₁, List.getElem?_eq_getElem h₂]
    simp
  refine ⟨hmid, ?_, ?_⟩
  · intro k z h₁ h₂
    unfold cellQbin
    rw [hmid k h₁ h₂]
  · intro wavEdges₂ hmids
    have hq : ∀ k z, cellQbin ctx wavEdges qEdges mu k z =
        cellQbin ctx wavEdges₂ qEdges mu k z := by
      intro k z
      unfold cellQbin
      rw [hmids k]
    refine ⟨hq, ?_⟩
    intro g nK nZ i
    unfold idealIntensityInBin
    have hfun : (fun kz : ℕ × ℕ =>
        decide (cellQbin ctx wavEdges qEdges mu kz.1 kz.2 = some i)) =
        fun kz : ℕ × ℕ =>
        decide (cellQbin ctx wavEdges₂ qEdges mu kz.1 kz.2 = some i) := by
      funext kz
      rw [hq kz.1 kz.2]
    rw [hfun]

/-- Witness for C10: at the concrete grid [0, 10] the first cell's midpoint
is 5, and the grid [2, 8] with the same midpoints gives the same Q-bin for
cell (0, 0) and the same coarse intensity in bin 0. -/
theorem cell_evaluated_at_midpoint_witness :
    ((0 : ℕ) < wavEdgesW.length) ∧ ((1 : ℕ) < wavEdgesW.length) ∧
    (cellMidpoint wavEdgesW 0 = cellMidpoint wavEdgesW₂ 0) ∧
    (cellQbin ctxW wavEdgesW qEdgesW 0 0 0 =
      cellQbin ctxW wavEdgesW₂ qEdgesW 0 0 0) ∧
    idealIntensityInBin ctxW wavEdgesW qEdgesW 0 gW 1 1 0 =
      idealIntensityInBin ctxW wavEdgesW₂ qEdgesW 0 gW 1 1 0 := by
  have hmids : ∀ k, cellMidpoint wavEdgesW k = cellMidpoint wavEdgesW₂ k := by
    intro k
    match k with
    | 0 =>
      unfold cellMidpoint wavEdgesW wavEdgesW₂
      norm_num
    | Nat.succ m =>
      rw [cellMidpoint_eq_none wavEdgesW (m + 1) (by simp [wavEdgesW]),
        cellMidpoint_eq_none wavEdgesW₂ (m + 1) (by simp [wavEdgesW₂])]
  have h := (cell_evaluated_at_midpoint ctxW qEdgesW 0 wavEdgesW).2.2
    wavEdgesW₂ hmids
  exact ⟨by decide, by decide, hmids 0, h.1 0 0, h.2 gW 1 1 0⟩

end Reflectometry
